import Mathlib

/-!
Verification of the rollup fee core (l2geth `rollup/fees/rollup_fee.go` and the
`OVM_GasPriceOracle` predeploy contract).

Conventions of the embedding:
* Go `*big.Int` values are `Int` (fees, overhead, gas price, scalar).
* Go `uint64` arithmetic is `Nat` arithmetic reduced `% 2 ^ 64` at every
  operation that the source performs on `uint64` operands.
* Solidity `uint256` arithmetic is `Nat` arithmetic `% 2 ^ 256`; `SafeMath`
  operations return `Option Nat`, `none` modelling a revert.
* Byte strings are `List Nat`, one entry per byte.
-/

/-- Protocol constant `params.TxDataZeroGas`: gas per zero byte of calldata
(value fixed by the spec and mirrored in the contract's comments). -/
def TxDataZeroGas : Nat := 4

/-- Protocol constant `params.TxDataNonZeroGasEIP2028`: gas per non-zero byte
of calldata (value fixed by the spec and mirrored in the contract's comments). -/
def TxDataNonZeroGasEIP2028 : Nat := 16

/-- Number of zero bytes in a byte string (specification-side count, exact). -/
def zeroCount (data : List Nat) : Nat := data.countP (fun b => b == 0)

/-- Number of non-zero bytes in a byte string (specification-side count, exact). -/
def nonZeroCount (data : List Nat) : Nat := data.countP (fun b => !(b == 0))

/-- Weighted byte cost of a byte string under the byte cost model:
4 per zero byte, 16 per non-zero byte (exact, no machine truncation). -/
def byteCost (data : List Nat) : Nat :=
  TxDataZeroGas * zeroCount data + TxDataNonZeroGasEIP2028 * nonZeroCount data

/-- One step of the loop of `zeroesAndOnes`: the Go counters are `uint64`,
so each increment is reduced mod `2 ^ 64`. -/
def countStep (zo : Nat × Nat) (byt : Nat) : Nat × Nat :=
  if byt == 0 then ((zo.1 + 1) % 2 ^ 64, zo.2) else (zo.1, (zo.2 + 1) % 2 ^ 64)

/-- Embedding of `zeroesAndOnes` from `rollup_fee.go`: counts the number of
zero bytes and non-zero bytes in a byte slice, in `uint64` counters. -/
def zeroesAndOnes (data : List Nat) : Nat × Nat := data.foldl countStep (0, 0)

/-- Embedding of `CalculateL1GasUsed` from `rollup_fee.go`:
`zeroes * TxDataZeroGas` and `ones * TxDataNonZeroGasEIP2028` and their sum are
`uint64` products/sums (hence the `% 2 ^ 64`); the final addition of `overhead`
is `big.Int` arithmetic, hence exact. -/
def CalculateL1GasUsed (data : List Nat) (overhead : Int) : Int :=
  let zo := zeroesAndOnes data
  let zeroesCost : Nat := zo.1 * TxDataZeroGas % 2 ^ 64
  let onesCost : Nat := zo.2 * TxDataNonZeroGasEIP2028 % 2 ^ 64
  let l1Cost : Nat := (zeroesCost + onesCost) % 2 ^ 64
  (l1Cost : Int) + overhead

/-- Embedding of `CalculateL1Fee` from `rollup_fee.go`: gas-used first, then
the L1 gas price, then the scalar, all in `big.Int` arithmetic. -/
def CalculateL1Fee (data : List Nat) (overhead l1GasPrice scalar : Int) : Int :=
  let cost := CalculateL1GasUsed data overhead
  let l1Fee := cost * l1GasPrice
  l1Fee * scalar

/-- The `uint64` counters of `zeroesAndOnes` compute the exact byte counts
reduced mod `2 ^ 64`. -/
lemma zeroesAndOnes_foldl (data : List Nat) : ∀ a b : Nat,
    data.foldl countStep (a % 2 ^ 64, b % 2 ^ 64)
      = ((a + zeroCount data) % 2 ^ 64, (b + nonZeroCount data) % 2 ^ 64) := by
  induction data with
  | nil => intro a b; simp [zeroCount, nonZeroCount]
  | cons x xs ih =>
    intro a b
    rw [List.foldl_cons]
    by_cases hx : x = 0
    · have hzc : zeroCount (x :: xs) = zeroCount xs + 1 := by
        simp [zeroCount, List.countP_cons, hx]
      have hnzc : nonZeroCount (x :: xs) = nonZeroCount xs := by
        simp [nonZeroCount, List.countP_cons, hx]
      have h1 : countStep (a % 2 ^ 64, b % 2 ^ 64) x = ((a + 1) % 2 ^ 64, b % 2 ^ 64) := by
        unfold countStep
        rw [if_pos (by simp [hx])]
        have hmod : (a % 2 ^ 64 + 1) % 2 ^ 64 = (a + 1) % 2 ^ 64 := by omega
        rw [hmod]
      rw [h1, ih (a + 1) b, hzc, hnzc]
      congr 1
      omega
    · have hzc : zeroCount (x :: xs) = zeroCount xs := by
        simp [zeroCount, List.countP_cons, hx]
      have hnzc : nonZeroCount (x :: xs) = nonZeroCount xs + 1 := by
        simp [nonZeroCount, List.countP_cons, hx]
      have h1 : countStep (a % 2 ^ 64, b % 2 ^ 64) x = (a % 2 ^ 64, (b + 1) % 2 ^ 64) := by
        unfold countStep
        rw [if_neg (by simp [hx])]
        have hmod : (b % 2 ^ 64 + 1) % 2 ^ 64 = (b + 1) % 2 ^ 64 := by omega
        rw [hmod]
      rw [h1, ih a (b + 1), hzc, hnzc]
      congr 1
      omega

/-- Closed form for `zeroesAndOnes`. -/
lemma zeroesAndOnes_eq (data : List Nat) :
    zeroesAndOnes data = (zeroCount data % 2 ^ 64, nonZeroCount data % 2 ^ 64) := by
  have h := zeroesAndOnes_foldl data 0 0
  simpa [zeroesAndOnes] using h

/-- When the weighted byte cost fits in a `uint64`, `CalculateL1GasUsed` is
exact. -/
lemma calculateL1GasUsed_eq (data : List Nat) (overhead : Int)
    (h : 4 * zeroCount data + 16 * nonZeroCount data < 2 ^ 64) :
    CalculateL1GasUsed data overhead
      = ((4 * zeroCount data + 16 * nonZeroCount data : Nat) : Int) + overhead := by
  have h2 : CalculateL1GasUsed data overhead
      = (((((zeroesAndOnes data).1 * TxDataZeroGas % 2 ^ 64)
          + ((zeroesAndOnes data).2 * TxDataNonZeroGasEIP2028 % 2 ^ 64)) % 2 ^ 64 : Nat) : Int)
        + overhead := rfl
  rw [h2, zeroesAndOnes_eq]
  have key : ((zeroCount data % 2 ^ 64, nonZeroCount data % 2 ^ 64).1 * TxDataZeroGas % 2 ^ 64
        + (zeroCount data % 2 ^ 64, nonZeroCount data % 2 ^ 64).2
            * TxDataNonZeroGasEIP2028 % 2 ^ 64) % 2 ^ 64
      = 4 * zeroCount data + 16 * nonZeroCount data := by
    show (zeroCount data % 2 ^ 64 * TxDataZeroGas % 2 ^ 64
        + nonZeroCount data % 2 ^ 64 * TxDataNonZeroGasEIP2028 % 2 ^ 64) % 2 ^ 64
      = 4 * zeroCount data + 16 * nonZeroCount data
    unfold TxDataZeroGas TxDataNonZeroGasEIP2028
    omega
  rw [key]

/-- Counting a predicate over a replicated list. -/
lemma countP_replicate_eq (p : Nat → Bool) (n a : Nat) :
    List.countP p (List.replicate n a) = if p a then n else 0 := by
  induction n with
  | zero => simp
  | succ k ih => cases hpa : p a <;> simp [List.replicate_succ, List.countP_cons, ih, hpa]

/-- C1 counterexample: on a byte slice of `2 ^ 62` non-zero bytes the `uint64`
byte-cost product wraps to `0`, so `CalculateL1GasUsed` does not equal the
exact weighted byte count (which is `2 ^ 66`). -/
theorem calculateL1GasUsed_uint64_wrap_cex :
    CalculateL1GasUsed (List.replicate (2 ^ 62) 1) 0
      ≠ ((4 * zeroCount (List.replicate (2 ^ 62) 1)
          + 16 * nonZeroCount (List.replicate (2 ^ 62) 1) : Nat) : Int) + 0 := by
  have hz : zeroCount (List.replicate (2 ^ 62) 1) = 0 := by
    rw [zeroCount, countP_replicate_eq]
    norm_num
  have hnz : nonZeroCount (List.replicate (2 ^ 62) 1) = 2 ^ 62 := by
    rw [nonZeroCount, countP_replicate_eq]
    norm_num
  have h2 : CalculateL1GasUsed (List.replicate (2 ^ 62) 1) 0
      = ((((zeroesAndOnes (List.replicate (2 ^ 62) 1)).1 * TxDataZeroGas % 2 ^ 64
          + (zeroesAndOnes (List.replicate (2 ^ 62) 1)).2
              * TxDataNonZeroGasEIP2028 % 2 ^ 64) % 2 ^ 64 : Nat) : Int) + 0 := rfl
  rw [h2, zeroesAndOnes_eq, hz, hnz]
  unfold TxDataZeroGas TxDataNonZeroGasEIP2028
  norm_num

/-- C1 (amended): for every byte sequence whose exact weighted byte cost
`4 * zeroCount + 16 * nonZeroCount` is below `2 ^ 64` (in particular any input
of realistic size) and every overhead, `CalculateL1GasUsed data overhead`
equals `4 * zeroCount data + 16 * nonZeroCount data + overhead`, computed with
exact integer arithmetic and no rounding. -/
theorem calculateL1GasUsed_exact (data : List Nat) (overhead : Int)
    (h : 4 * zeroCount data + 16 * nonZeroCount data < 2 ^ 64) :
    CalculateL1GasUsed data overhead
      = ((4 * zeroCount data + 16 * nonZeroCount data : Nat) : Int) + overhead :=
  calculateL1GasUsed_eq data overhead h

/-- Witness for C1 (amended) at the concrete input `[0, 1, 2]`, overhead `5`:
the hypothesis holds and the gas used is `4 * 1 + 16 * 2 + 5 = 41`. -/
theorem calculateL1GasUsed_exact_witness :
    4 * zeroCount [0, 1, 2] + 16 * nonZeroCount [0, 1, 2] < 2 ^ 64
      ∧ CalculateL1GasUsed [0, 1, 2] 5
          = ((4 * zeroCount [0, 1, 2] + 16 * nonZeroCount [0, 1, 2] : Nat) : Int) + 5 :=
  ⟨by decide, calculateL1GasUsed_exact [0, 1, 2] 5 (by decide)⟩

/-- C2: `CalculateL1Fee data overhead l1GasPrice scalar` is exactly
`CalculateL1GasUsed data overhead * l1GasPrice * scalar`, multiplied in that
order in arbitrary-precision integer arithmetic, the scalar being a raw
integer multiplier (no fixed-point scaling or division). -/
theorem calculateL1Fee_product (data : List Nat) (overhead l1GasPrice scalar : Int) :
    CalculateL1Fee data overhead l1GasPrice scalar
      = CalculateL1GasUsed data overhead * l1GasPrice * scalar := rfl

/-! Model of the on-chain `OVM_GasPriceOracle` contract (`getL1GasUsed` and
`getL1Fee`). Solidity `uint256` arithmetic wraps mod `2 ^ 256` when unchecked
(the `total += 4/16` loop, compiler < 0.8); `SafeMath` operations revert on
overflow, modelled by `Option`. -/

namespace OVMGasPriceOracle

/-- Modelled from the spec: OpenZeppelin `SafeMath.add`, which reverts (here
`none`) when the `uint256` sum overflows. The library source is not under
`src/`; the contract calls it for the final addition of `getL1GasUsed`. -/
def safeAdd (a b : Nat) : Option Nat :=
  if a + b < 2 ^ 256 then some (a + b) else none

/-- Modelled from the spec: OpenZeppelin `SafeMath.mul`, which reverts (here
`none`) when the `uint256` product overflows. The library source is not under
`src/`; the contract calls it twice in `getL1Fee`. -/
def safeMul (a b : Nat) : Option Nat :=
  if a * b < 2 ^ 256 then some (a * b) else none

/-- One iteration of the byte loop of `getL1GasUsed`: `total += 4` for a zero
byte, `total += 16` otherwise, in unchecked `uint256` arithmetic. -/
def totalStep (total : Nat) (b : Nat) : Nat :=
  if b == 0 then (total + 4) % 2 ^ 256 else (total + 16) % 2 ^ 256

/-- Embedding of `OVM_GasPriceOracle.getL1GasUsed`: the loop total plus the
stored `overhead`, the final addition via `SafeMath.add`. -/
def getL1GasUsed (overhead : Nat) (data : List Nat) : Option Nat :=
  safeAdd (data.foldl totalStep 0) overhead

/-- Embedding of `OVM_GasPriceOracle.getL1Fee`: `getL1GasUsed`, then
`SafeMath.mul` by the stored `l1BaseFee`, then `SafeMath.mul` by the stored
`scalar`. -/
def getL1Fee (overhead l1BaseFee scalar : Nat) (data : List Nat) : Option Nat :=
  (getL1GasUsed overhead data).bind fun l1Cost =>
    (safeMul l1Cost l1BaseFee).bind fun l1Fee =>
      safeMul l1Fee scalar

/-- The contract's loop total is the exact weighted byte cost reduced
mod `2 ^ 256`. -/
lemma total_foldl (data : List Nat) : ∀ t : Nat,
    data.foldl totalStep (t % 2 ^ 256)
      = (t + 4 * zeroCount data + 16 * nonZeroCount data) % 2 ^ 256 := by
  induction data with
  | nil => intro t; simp [zeroCount, nonZeroCount]
  | cons x xs ih =>
    intro t
    rw [List.foldl_cons]
    by_cases hx : x = 0
    · have hzc : zeroCount (x :: xs) = zeroCount xs + 1 := by
        simp [zeroCount, List.countP_cons, hx]
      have hnzc : nonZeroCount (x :: xs) = nonZeroCount xs := by
        simp [nonZeroCount, List.countP_cons, hx]
      have h1 : totalStep (t % 2 ^ 256) x = (t + 4) % 2 ^ 256 := by
        unfold totalStep
        rw [if_pos (by simp [hx])]
        omega
      rw [h1, ih (t + 4), hzc, hnzc]
      congr 1
      omega
    · have hzc : zeroCount (x :: xs) = zeroCount xs := by
        simp [zeroCount, List.countP_cons, hx]
      have hnzc : nonZeroCount (x :: xs) = nonZeroCount xs + 1 := by
        simp [nonZeroCount, List.countP_cons, hx]
      have h1 : totalStep (t % 2 ^ 256) x = (t + 16) % 2 ^ 256 := by
        unfold totalStep
        rw [if_neg (by simp [hx])]
        omega
      rw [h1, ih (t + 16), hzc, hnzc]
      congr 1
      omega

/-- Closed form for the contract's loop total. -/
lemma total_eq (data : List Nat) :
    data.foldl totalStep 0 = (4 * zeroCount data + 16 * nonZeroCount data) % 2 ^ 256 := by
  have h := total_foldl data 0
  simpa using h

end OVMGasPriceOracle

/-- C3 (amended): whenever the exact weighted byte cost fits in a `uint64`
(so the Go `uint64` byte-cost arithmetic does not wrap) and the same
parameter snapshot is supplied to both sides, every value the contract
returns (i.e. whenever its `SafeMath` arithmetic does not revert) coincides
with the Go calculator: `getL1GasUsed` with `CalculateL1GasUsed` and
`getL1Fee` with `CalculateL1Fee`. -/
theorem gasPriceOracle_refines_calculateL1Fee (data : List Nat) (overhead p s : Nat)
    (h : 4 * zeroCount data + 16 * nonZeroCount data < 2 ^ 64) :
    (∀ v, OVMGasPriceOracle.getL1GasUsed overhead data = some v
        → (v : Int) = CalculateL1GasUsed data (overhead : Int))
    ∧ (∀ v, OVMGasPriceOracle.getL1Fee overhead p s data = some v
        → (v : Int) = CalculateL1Fee data (overhead : Int) (p : Int) (s : Int)) := by
  have hgo : CalculateL1GasUsed data (overhead : Int)
      = ((4 * zeroCount data + 16 * nonZeroCount data : Nat) : Int) + (overhead : Int) :=
    calculateL1GasUsed_eq data (overhead : Int) h
  have htot : data.foldl OVMGasPriceOracle.totalStep 0
      = 4 * zeroCount data + 16 * nonZeroCount data := by
    rw [OVMGasPriceOracle.total_eq]
    omega
  have hgas : ∀ v, OVMGasPriceOracle.getL1GasUsed overhead data = some v
      → (v : Int) = CalculateL1GasUsed data (overhead : Int) := by
    intro v hv
    unfold OVMGasPriceOracle.getL1GasUsed OVMGasPriceOracle.safeAdd at hv
    rw [htot] at hv
    split at hv
    · have hv2 : 4 * zeroCount data + 16 * nonZeroCount data + overhead = v :=
        Option.some.inj hv
      rw [hgo, ← hv2]
      push_cast
      ring
    · exact absurd hv (by simp)
  refine ⟨hgas, ?_⟩
  intro v hv
  unfold OVMGasPriceOracle.getL1Fee at hv
  cases hg : OVMGasPriceOracle.getL1GasUsed overhead data with
  | none => rw [hg] at hv; simp at hv
  | some c =>
    rw [hg] at hv
    rw [Option.some_bind'] at hv
    cases hm1 : OVMGasPriceOracle.safeMul c p with
    | none => rw [hm1] at hv; simp at hv
    | some f =>
      rw [hm1] at hv
      rw [Option.some_bind'] at hv
      unfold OVMGasPriceOracle.safeMul at hm1 hv
      have hcp : f = c * p := by
        split at hm1
        · exact (Option.some.inj hm1).symm
        · exact absurd hm1 (by simp)
      have hfs : v = f * s := by
        split at hv
        · exact (Option.some.inj hv).symm
        · exact absurd hv (by simp)
      have hc : (c : Int) = CalculateL1GasUsed data (overhead : Int) := hgas c hg
      have hfee : CalculateL1Fee data (overhead : Int) (p : Int) (s : Int)
          = CalculateL1GasUsed data (overhead : Int) * (p : Int) * (s : Int) := rfl
      rw [hfee, ← hc, hfs, hcp]
      push_cast
      ring

/-- Witness for C3 (amended) at data `[0, 1]`, overhead `2`, l1BaseFee `3`,
scalar `5`: the contract returns `some 330` and the Go calculator returns
`330` as well. -/
theorem gasPriceOracle_refines_witness :
    4 * zeroCount [0, 1] + 16 * nonZeroCount [0, 1] < 2 ^ 64
    ∧ ((330 : Nat) : Int) = CalculateL1Fee [0, 1] 2 3 5 :=
  ⟨by decide,
    (gasPriceOracle_refines_calculateL1Fee [0, 1] 2 3 5 (by decide)).2 330 (by decide)⟩

/-- C3 counterexample: on `2 ^ 62` non-zero bytes with overhead `0`,
l1BaseFee `1` and scalar `1`, the contract computes the exact cost
`2 ^ 66` in `uint256` arithmetic while the Go calculator's `uint64`
byte-cost product wraps to `0`, so the two sides disagree. -/
theorem gasPriceOracle_go_divergence_cex :
    OVMGasPriceOracle.getL1Fee 0 1 1 (List.replicate (2 ^ 62) 1) = some (2 ^ 66)
    ∧ CalculateL1Fee (List.replicate (2 ^ 62) 1) 0 1 1 ≠ ((2 ^ 66 : Nat) : Int) := by
  have hz : zeroCount (List.replicate (2 ^ 62) 1) = 0 := by
    rw [zeroCount, countP_replicate_eq]
    norm_num
  have hnz : nonZeroCount (List.replicate (2 ^ 62) 1) = 2 ^ 62 := by
    rw [nonZeroCount, countP_replicate_eq]
    norm_num
  constructor
  · have htot : (List.replicate (2 ^ 62) 1).foldl OVMGasPriceOracle.totalStep 0 = 2 ^ 66 := by
      rw [OVMGasPriceOracle.total_eq, hz, hnz]
      norm_num
    unfold OVMGasPriceOracle.getL1Fee OVMGasPriceOracle.getL1GasUsed
      OVMGasPriceOracle.safeAdd OVMGasPriceOracle.safeMul
    rw [htot]
    norm_num
  · have h2 : CalculateL1Fee (List.replicate (2 ^ 62) 1) 0 1 1
        = CalculateL1GasUsed (List.replicate (2 ^ 62) 1) 0 * 1 * 1 := rfl
    have h3 : CalculateL1GasUsed (List.replicate (2 ^ 62) 1) 0
        = ((((zeroesAndOnes (List.replicate (2 ^ 62) 1)).1 * TxDataZeroGas % 2 ^ 64
            + (zeroesAndOnes (List.replicate (2 ^ 62) 1)).2
                * TxDataNonZeroGasEIP2028 % 2 ^ 64) % 2 ^ 64 : Nat) : Int) + 0 := rfl
    rw [h2, h3, zeroesAndOnes_eq, hz, hnz]
    unfold TxDataZeroGas TxDataNonZeroGasEIP2028
    norm_num

/-! Transaction encoding and the two fee-aggregation paths. The transaction
type's RLP serializer (`types.Transaction.EncodeRLP`) is not under `src/`;
it is modelled from the spec's description of the wire encoding: a standard
legacy transaction serialization, the RLP list of the nine fields
nonce, gasPrice, gas, to, value, data, v, r, s. -/

/-- Big-endian minimal byte representation of a natural number, with an
explicit fuel argument bounding the recursion depth (any fuel at least the
number itself yields the exact encoding). -/
def natBEAux : Nat → Nat → List Nat
  | _, 0 => []
  | 0, _ + 1 => []
  | f + 1, m + 1 => natBEAux f ((m + 1) / 256) ++ [(m + 1) % 256]

/-- Big-endian minimal byte representation of a natural number (empty for 0). -/
def natBE (n : Nat) : List Nat := natBEAux n n

/-- Modelled from the spec: the RLP encoding of a byte string (standard chain
serialization; the transaction serializer is not under `src/`). -/
def rlpBytes (bs : List Nat) : List Nat :=
  if bs.length = 1 ∧ bs.headD 0 < 128 then bs
  else if bs.length < 56 then (128 + bs.length) :: bs
  else (183 + (natBE bs.length).length) :: (natBE bs.length ++ bs)

/-- Modelled from the spec: the RLP encoding of a natural number, i.e. the RLP
encoding of its minimal big-endian byte representation. -/
def rlpNat (n : Nat) : List Nat := rlpBytes (natBE n)

/-- Modelled from the spec: the RLP list header wrapped around an encoded
payload. -/
def rlpListEnc (payload : List Nat) : List Nat :=
  if payload.length < 56 then (192 + payload.length) :: payload
  else (247 + (natBE payload.length).length) :: (natBE payload.length ++ payload)

/-- A legacy transaction: the fields of `types.Transaction` that the fee code
reads. `to = none` is a contract creation. `v`, `r`, `s` are the signature
values (zero big integers on a not-yet-signed transaction). -/
structure Transaction where
  nonce : Nat
  gasPrice : Nat
  gas : Nat
  toAddr : Option (List Nat)
  value : Nat
  data : List Nat
  v : Nat
  r : Nat
  s : Nat
deriving DecidableEq

/-- Modelled from the spec: `types.Transaction.EncodeRLP` (not under `src/`),
the standard legacy wire encoding — the RLP list of the nine transaction
fields, a missing recipient encoding as the empty byte string. -/
def encodeRLPTx (tx : Transaction) : List Nat :=
  rlpListEnc (rlpNat tx.nonce ++ rlpNat tx.gasPrice ++ rlpNat tx.gas
    ++ rlpBytes (tx.toAddr.getD []) ++ rlpNat tx.value ++ rlpBytes tx.data
    ++ rlpNat tx.v ++ rlpNat tx.r ++ rlpNat tx.s)

/-- Embedding of `rawTransaction` from `rollup_fee.go`: the RLP encoding of
the transaction, followed — when `pad` is set — by `bytes.Repeat([]byte("ff"),
68)`, i.e. 136 copies of the ASCII character `f` (byte `0x66` = 102), not the
byte `0xFF`. Encoding errors cannot arise in the model, so the function is
total. -/
def rawTransaction (tx : Transaction) (pad : Bool) : List Nat :=
  if pad then encodeRLPTx tx ++ List.replicate 136 102 else encodeRLPTx tx

/-- A message as consumed by `CalculateMsgFee`: the fields of the `Message`
interface that `asTransaction` reads (the sender is dropped by
`asTransaction`, so it is omitted here). -/
structure Msg where
  nonce : Nat
  gasPrice : Nat
  gas : Nat
  toAddr : Option (List Nat)
  value : Nat
  data : List Nat
deriving DecidableEq

/-- Embedding of `asTransaction` from `rollup_fee.go`: rebuilds an unsigned
transaction from a message; both `types.NewTransaction` and
`types.NewContractCreation` leave `v`, `r`, `s` as zero big integers. -/
def asTransaction (msg : Msg) : Transaction :=
  { nonce := msg.nonce, gasPrice := msg.gasPrice, gas := msg.gas,
    toAddr := msg.toAddr, value := msg.value, data := msg.data, v := 0, r := 0, s := 0 }

/-- Embedding of `CalculateFee` from `rollup_fee.go`, with the oracle's
parameter snapshot passed explicitly (the oracle transport is out of scope):
L1 fee on the signed-mode encoding plus `gasPrice * gasLimit`. -/
def CalculateFee (tx : Transaction) (l1GasPrice overhead scalar : Int) : Int :=
  let l1Fee := CalculateL1Fee (rawTransaction tx false) overhead l1GasPrice scalar
  let l2Fee := (tx.gasPrice : Int) * (tx.gas : Int)
  l1Fee + l2Fee

/-- Embedding of `CalculateMsgFee` (with `CalculateL1MsgFee` inlined) from
`rollup_fee.go`, with the state-slot parameter snapshot passed explicitly:
L1 fee on the padded unsigned-mode encoding of the rebuilt transaction plus
`gasPrice * gasUsed`. -/
def CalculateMsgFee (msg : Msg) (l1GasPrice overhead scalar gasUsed : Int) : Int :=
  let l1Fee := CalculateL1Fee (rawTransaction (asTransaction msg) true) overhead l1GasPrice scalar
  let l2Fee := (msg.gasPrice : Int) * gasUsed
  l1Fee + l2Fee

/-- The Go L1 fee depends on the encoded bytes only through their exact
weighted byte cost. -/
lemma calculateL1Fee_cost_congr (d1 d2 : List Nat) (overhead p s : Int)
    (h : byteCost d1 = byteCost d2) :
    CalculateL1Fee d1 overhead p s = CalculateL1Fee d2 overhead p s := by
  have hcost : ∀ d : List Nat, CalculateL1GasUsed d overhead
      = (((zeroCount d % 2 ^ 64 * TxDataZeroGas % 2 ^ 64
          + nonZeroCount d % 2 ^ 64 * TxDataNonZeroGasEIP2028 % 2 ^ 64) % 2 ^ 64 : Nat) : Int)
        + overhead := by
    intro d
    have h2 : CalculateL1GasUsed d overhead
        = (((((zeroesAndOnes d).1 * TxDataZeroGas % 2 ^ 64)
            + ((zeroesAndOnes d).2 * TxDataNonZeroGasEIP2028 % 2 ^ 64)) % 2 ^ 64 : Nat) : Int)
          + overhead := rfl
    rw [h2, zeroesAndOnes_eq]
  have hb : byteCost d1 = 4 * zeroCount d1 + 16 * nonZeroCount d1 := by
    unfold byteCost TxDataZeroGas TxDataNonZeroGasEIP2028
    ring
  have hb2 : byteCost d2 = 4 * zeroCount d2 + 16 * nonZeroCount d2 := by
    unfold byteCost TxDataZeroGas TxDataNonZeroGasEIP2028
    ring
  have hkey : (zeroCount d1 % 2 ^ 64 * TxDataZeroGas % 2 ^ 64
        + nonZeroCount d1 % 2 ^ 64 * TxDataNonZeroGasEIP2028 % 2 ^ 64) % 2 ^ 64
      = (zeroCount d2 % 2 ^ 64 * TxDataZeroGas % 2 ^ 64
        + nonZeroCount d2 % 2 ^ 64 * TxDataNonZeroGasEIP2028 % 2 ^ 64) % 2 ^ 64 := by
    rw [hb, hb2] at h
    unfold TxDataZeroGas TxDataNonZeroGasEIP2028
    omega
  have hgas : CalculateL1GasUsed d1 overhead = CalculateL1GasUsed d2 overhead := by
    rw [hcost d1, hcost d2, hkey]
  show CalculateL1GasUsed d1 overhead * p * s = CalculateL1GasUsed d2 overhead * p * s
  rw [hgas]

/-- C4 (amended): the two fee paths share the aggregation rule
`fee = L1Fee + L2Fee` with the same `CalculateL1Fee` and the same parameter
snapshot; but they apply it to different byte strings (signed-mode encoding
versus padded unsigned-mode encoding), so the fees differ only in the L2
portion precisely when those two encodings have equal weighted byte cost. -/
theorem fee_paths_differ_only_l2 (tx : Transaction) (msg : Msg)
    (p o s gasUsed : Int)
    (h : byteCost (rawTransaction tx false)
        = byteCost (rawTransaction (asTransaction msg) true)) :
    CalculateFee tx p o s - CalculateMsgFee msg p o s gasUsed
      = (tx.gasPrice : Int) * (tx.gas : Int) - (msg.gasPrice : Int) * gasUsed := by
  have hl1 : CalculateL1Fee (rawTransaction tx false) o p s
      = CalculateL1Fee (rawTransaction (asTransaction msg) true) o p s :=
    calculateL1Fee_cost_congr _ _ o p s h
  show CalculateL1Fee (rawTransaction tx false) o p s + (tx.gasPrice : Int) * (tx.gas : Int)
      - (CalculateL1Fee (rawTransaction (asTransaction msg) true) o p s
        + (msg.gasPrice : Int) * gasUsed)
    = (tx.gasPrice : Int) * (tx.gas : Int) - (msg.gasPrice : Int) * gasUsed
  rw [hl1]
  ring

/-- A message used as the C4 counterexample input (a plain value transfer). -/
def msg0 : Msg :=
  { nonce := 0, gasPrice := 1, gas := 21000,
    toAddr := some (List.replicate 20 1), value := 0, data := [] }

/-- The signed counterpart of `msg0`: the same logical content, with a
signature attached (v of an EIP-155 chain, 32-byte r and s values). -/
def tx0 : Transaction :=
  { nonce := msg0.nonce, gasPrice := msg0.gasPrice, gas := msg0.gas,
    toAddr := msg0.toAddr, value := msg0.value, data := msg0.data,
    v := 38, r := 2 ^ 255 + 12345, s := 2 ^ 254 + 6789 }

set_option maxRecDepth 100000 in
set_option maxHeartbeats 1000000 in
/-- C4 counterexample: for the same logical transaction content (`tx0` is
`msg0` plus a signature) and the same parameter snapshot, the L1 portions of
the two paths differ — the signed-mode encoding and the padded unsigned-mode
encoding have different weighted byte costs — so the two fees do not agree
up to the L2 portion. -/
theorem fee_paths_l1_portion_cex :
    CalculateL1Fee (rawTransaction tx0 false) 0 1 1
      ≠ CalculateL1Fee (rawTransaction (asTransaction msg0) true) 0 1 1 := by
  decide

set_option maxRecDepth 100000 in
set_option maxHeartbeats 1000000 in
/-- Witness for C4 (amended): a message and a signed transaction whose two
encodings happen to have equal weighted byte cost; there the fees differ
exactly by the difference of the L2 portions. -/
theorem fee_paths_differ_only_l2_witness :
    byteCost (rawTransaction
        ({ nonce := 0, gasPrice := 1, gas := 2, toAddr := none, value := 0,
           data := List.replicate 134 102, v := 0, r := 0, s := 0 } : Transaction) false)
      = byteCost (rawTransaction (asTransaction
        ({ nonce := 0, gasPrice := 1, gas := 2, toAddr := none, value := 0,
           data := [] } : Msg)) true)
    ∧ CalculateFee
        ({ nonce := 0, gasPrice := 1, gas := 2, toAddr := none, value := 0,
           data := List.replicate 134 102, v := 0, r := 0, s := 0 } : Transaction) 3 5 7
      - CalculateMsgFee
          ({ nonce := 0, gasPrice := 1, gas := 2, toAddr := none, value := 0,
             data := [] } : Msg) 3 5 7 11
      = ((1 : Nat) : Int) * ((2 : Nat) : Int) - ((1 : Nat) : Int) * 11 :=
  ⟨by decide,
    fee_paths_differ_only_l2
      ({ nonce := 0, gasPrice := 1, gas := 2, toAddr := none, value := 0,
         data := List.replicate 134 102, v := 0, r := 0, s := 0 } : Transaction)
      ({ nonce := 0, gasPrice := 1, gas := 2, toAddr := none, value := 0,
         data := [] } : Msg) 3 5 7 11 (by decide)⟩

/-- C9: padded-mode encoding is exactly the signed-mode encoding of the same
transaction followed by 136 bytes of the ASCII character `f` (102 = 0x66, not
0xFF); all filler bytes are non-zero, so the filler contributes exactly
`136 * 16` units of weighted byte cost. -/
theorem rawTransaction_pad_filler (tx : Transaction) :
    rawTransaction tx true = rawTransaction tx false ++ List.replicate 136 102
    ∧ (∀ b ∈ List.replicate 136 (102 : Nat), b ≠ 0)
    ∧ byteCost (rawTransaction tx true) = byteCost (rawTransaction tx false) + 136 * 16 := by
  have happ : rawTransaction tx true = rawTransaction tx false ++ List.replicate 136 102 := by
    unfold rawTransaction
    simp
  refine ⟨happ, ?_, ?_⟩
  · intro b hb
    have := List.eq_of_mem_replicate hb
    omega
  · rw [happ]
    unfold byteCost zeroCount nonZeroCount
    rw [List.countP_append, List.countP_append, countP_replicate_eq, countP_replicate_eq]
    norm_num [TxDataZeroGas, TxDataNonZeroGasEIP2028]
    ring


/-! The fee validator `PaysEnough` and its floating-point helper `mulByFloat`.

A `big.Float` is a binary floating value: a sign, a mantissa and an exponent,
rounded to the float's precision. It is modelled by a precision together with
an exact dyadic value `m * 2 ^ e`; the rounding performed by `big.Float`
arithmetic and by the conversion to `float64` is round-to-nearest-even at the
respective precision, computed here exactly on dyadic values. -/

/-- Floor of the base-2 logarithm of a natural number (0 for 0 and 1), with a
fuel argument bounding the recursion depth; any fuel at least the number
itself is enough. -/
def natLog2Aux : Nat → Nat → Nat
  | 0, _ => 0
  | f + 1, n => if n ≤ 1 then 0 else natLog2Aux f (n / 2) + 1

/-- Floor of the base-2 logarithm of a natural number. -/
def natLog2 (n : Nat) : Nat := natLog2Aux n n

/-- An exact dyadic value `m * 2 ^ e` (the value space of binary floats). -/
structure Dyadic where
  m : Int
  e : Int
deriving DecidableEq

/-- Exact product of two dyadic values. -/
def dyMul (a b : Dyadic) : Dyadic := ⟨a.m * b.m, a.e + b.e⟩

/-- Floor of the base-2 logarithm of the absolute value of a non-zero dyadic:
`log2 |m| + e`. -/
def dyFloorLog2 (a : Dyadic) : Int := (natLog2 a.m.natAbs : Int) + a.e

/-- Round a dyadic value to the nearest integer, ties to even (the IEEE-754
and `big.Float` default rounding mode). -/
def dyRoundNearestEven (a : Dyadic) : Int :=
  if 0 ≤ a.e then a.m * 2 ^ a.e.toNat
  else
    let d : Int := 2 ^ (-a.e).toNat
    let f := a.m.fdiv d
    let r := a.m - f * d
    if 2 * r < d then f
    else if d < 2 * r then f + 1
    else if f % 2 = 0 then f else f + 1

/-- Ceiling of a dyadic value as an integer. -/
def dyCeil (a : Dyadic) : Int :=
  if 0 ≤ a.e then a.m * 2 ^ a.e.toNat
  else -((-a.m).fdiv (2 ^ (-a.e).toNat))

/-- Round a dyadic value to a binary float of `p` significant bits,
round-to-nearest-even (the rounding `big.Float` performs at precision `p`):
scale so that the mantissa has `p` bits, round to an integer, scale back. -/
def roundToPrec (p : Nat) (a : Dyadic) : Dyadic :=
  if a.m = 0 then ⟨0, 0⟩
  else
    let s : Int := (p : Int) - 1 - dyFloorLog2 a
    ⟨dyRoundNearestEven ⟨a.m, a.e + s⟩, -s⟩

/-- Round a dyadic value to the `float64` grid: 53 significant bits for
normal values, fixed granularity `2 ^ (-1074)` in the subnormal range. -/
def float64Round (a : Dyadic) : Dyadic :=
  if a.m = 0 then ⟨0, 0⟩
  else
    let s : Int := min (52 - dyFloorLog2 a) 1074
    ⟨dyRoundNearestEven ⟨a.m, a.e + s⟩, -s⟩

/-- Conversion of an exact dyadic value to `float64` (`big.Float.Float64`):
round to the `float64` grid; `none` models an infinite result (overflow
beyond the largest finite double, detected after rounding as IEEE-754
prescribes). -/
def toFloat64 (a : Dyadic) : Option Dyadic :=
  let r := float64Round a
  if r.m ≠ 0 ∧ 1024 ≤ dyFloorLog2 r then none else some r

/-- Go `big.Int.Uint64`: the low 64 bits of the absolute value (the result is
only specified when the operand fits in a `uint64`). -/
def goUint64 (num : Int) : Nat := num.natAbs % 2 ^ 64

/-- The tail of `mulByFloat`: `pfloat, _ := product.Float64()`,
`rounded := math.Ceil(pfloat)`, `uint64(rounded)`. `math.Ceil` is exact on
doubles. A conversion of an out-of-range or infinite float to `uint64` is
implementation-specific in Go; the amd64 result `2 ^ 63` is used, and no
theorem below depends on that case. -/
def float64CeilToUint64 (a : Dyadic) : Nat :=
  match toFloat64 a with
  | none => 2 ^ 63
  | some pfloat =>
    let rounded := dyCeil pfloat
    if rounded < 0 ∨ (2 ^ 64 : Int) ≤ rounded then 2 ^ 63 else rounded.toNat

/-- A `big.Float`: a precision and an exact dyadic value. -/
structure BigFloat where
  prec : Nat
  val : Dyadic
deriving DecidableEq

/-- Embedding of `mulByFloat` from `rollup_fee.go`:
`n := new(big.Float).SetUint64(num.Uint64())` gives a precision-64 float
holding the low 64 bits of `num` exactly; `n.Mul(n, float)` rounds the exact
product to the receiver's precision (64, since `n` is the receiver); then the
`Float64` conversion, `math.Ceil`, and the `uint64` conversion. -/
def mulByFloat (num : Int) (t : BigFloat) : Nat :=
  let u := goUint64 num
  let product := roundToPrec 64 (dyMul ⟨(u : Int), 0⟩ t.val)
  float64CeilToUint64 product

/-- The three error kinds of the fee validator: `errMissingInput`,
`ErrFeeTooLow`, `ErrFeeTooHigh`. -/
inductive FeeError where
  | missingInput
  | feeTooLow
  | feeTooHigh
deriving DecidableEq

/-- Embedding of `PaysEnoughOpts` from `rollup_fee.go`: the two fees are
optional `big.Int` pointers (`none` = nil), the two thresholds optional
`big.Float` pointers. -/
structure PaysEnoughOpts where
  userFee : Option Int
  expectedFee : Option Int
  thresholdUp : Option BigFloat
  thresholdDown : Option BigFloat

/-- Embedding of `PaysEnough` from `rollup_fee.go`. The Go code copies
`ExpectedFee` into a fresh `fee` before applying `ThresholdDown` (the copy is
value-equal, so it is inlined here; the heap model below makes the copy
explicit). `Cmp(...) == -1` is `<` and `Cmp(...) == 1` is `>`. -/
def PaysEnough (opts : PaysEnoughOpts) : Option FeeError :=
  match opts.userFee with
  | none => some .missingInput
  | some userFee =>
    match opts.expectedFee with
    | none => some .missingInput
    | some expectedFee =>
      let fee : Int :=
        match opts.thresholdDown with
        | some td => (mulByFloat expectedFee td : Int)
        | none => expectedFee
      if userFee < fee then some .feeTooLow
      else
        match opts.thresholdUp with
        | some tu =>
          let overpaying := userFee - expectedFee
          let threshold : Int := (mulByFloat expectedFee tu : Int)
          if threshold < overpaying then some .feeTooHigh
          else none
        | none => none

/-- The floor against which the user fee is compared: the expected fee, or
its `mulByFloat` relaxation when a downward threshold is present. -/
def feeFloor (expectedFee : Int) (td : Option BigFloat) : Int :=
  match td with
  | some t => (mulByFloat expectedFee t : Int)
  | none => expectedFee

/-- C5: with both fees present, `PaysEnough` returns the fee-too-low error
exactly when the user fee is below the floor — the expected fee, or
`mulByFloat expectedFee thresholdDown` (the float-rounded ceiling product)
when the downward threshold is present — irrespective of the upward
threshold. -/
theorem paysEnough_feeTooLow_iff (uf ef : Int) (tu td : Option BigFloat) :
    PaysEnough ⟨some uf, some ef, tu, td⟩ = some FeeError.feeTooLow
      ↔ uf < feeFloor ef td := by
  unfold PaysEnough feeFloor
  cases td with
  | none =>
    by_cases hlt : uf < ef
    · simp [hlt]
    · cases tu with
      | none => simp [hlt]
      | some t =>
        by_cases h2 : (mulByFloat ef t : Int) < uf - ef <;> simp [hlt, h2]
  | some t0 =>
    by_cases hlt : uf < (mulByFloat ef t0 : Int)
    · simp [hlt]
    · cases tu with
      | none => simp [hlt]
      | some t =>
        by_cases h2 : (mulByFloat ef t : Int) < uf - ef <;> simp [hlt, h2]

/-- C6: with both fees present and the user fee not below the floor,
`PaysEnough` returns the fee-too-high error exactly when an upward threshold
is present and the overpayment `userFee - expectedFee` exceeds
`mulByFloat expectedFee thresholdUp`; otherwise it succeeds. -/
theorem paysEnough_feeTooHigh_iff (uf ef : Int) (tu td : Option BigFloat)
    (h : ¬ uf < feeFloor ef td) :
    (PaysEnough ⟨some uf, some ef, tu, td⟩ = some FeeError.feeTooHigh
        ↔ ∃ t, tu = some t ∧ (mulByFloat ef t : Int) < uf - ef)
    ∧ (PaysEnough ⟨some uf, some ef, tu, td⟩ = none
        ↔ ∀ t, tu = some t → uf - ef ≤ (mulByFloat ef t : Int)) := by
  unfold feeFloor at h
  unfold PaysEnough
  cases td with
  | none =>
    cases tu with
    | none => simp [h]
    | some t =>
      by_cases h2 : (mulByFloat ef t : Int) < uf - ef <;> simp [h, h2] <;> omega
  | some t0 =>
    cases tu with
    | none => simp [h]
    | some t =>
      by_cases h2 : (mulByFloat ef t : Int) < uf - ef <;> simp [h, h2] <;> omega

set_option maxRecDepth 10000 in
/-- Witness for C6 at the spec's example row: userFee 256, expectedFee 1,
thresholdUp 1.5 (a precision-53 float `3 * 2 ^ (-1)`, as `big.NewFloat`
produces): the cap is `ceil(1 * 1.5) = 2`, the overpayment 255 exceeds it,
and `PaysEnough` returns the fee-too-high error. -/
theorem paysEnough_feeTooHigh_witness :
    ¬ (256 : Int) < feeFloor 1 none
    ∧ PaysEnough ⟨some 256, some 1, some ⟨53, ⟨3, -1⟩⟩, none⟩ = some FeeError.feeTooHigh :=
  ⟨by decide,
    ((paysEnough_feeTooHigh_iff 256 1 (some ⟨53, ⟨3, -1⟩⟩) none (by decide)).1).mpr
      ⟨⟨53, ⟨3, -1⟩⟩, rfl, by decide⟩⟩

/-- C7: `PaysEnough` returns the missing-input error exactly when the user
fee or the expected fee is absent (whatever the thresholds are), and that
error kind is distinct from the two fee-amount errors. -/
theorem paysEnough_missingInput_iff (opts : PaysEnoughOpts) :
    (PaysEnough opts = some FeeError.missingInput
      ↔ opts.userFee = none ∨ opts.expectedFee = none)
    ∧ FeeError.missingInput ≠ FeeError.feeTooLow
    ∧ FeeError.missingInput ≠ FeeError.feeTooHigh := by
  refine ⟨?_, by decide, by decide⟩
  obtain ⟨uf?, ef?, tu, td⟩ := opts
  cases uf? with
  | none => simp [PaysEnough]
  | some uf =>
    cases ef? with
    | none => simp [PaysEnough]
    | some ef =>
      unfold PaysEnough
      simp only [Option.some.injEq]
      by_cases hlt : uf < (match td with
        | some t => (mulByFloat ef t : Int)
        | none => ef)
      · simp [hlt]
      · cases tu with
        | none => simp [hlt]
        | some t =>
          by_cases h2 : (mulByFloat ef t : Int) < uf - ef <;> simp [hlt, h2]

set_option maxRecDepth 10000 in
/-- C8: `mulByFloat` is the pipeline "low 64 bits of the operand, exact at
precision 64, times the threshold, rounded to precision 64, converted to
`float64`, ceiling, back to `uint64`"; consequently it is not the exact
integer ceiling beyond 64-bit range: at operand `2 ^ 64` the `Uint64`
conversion wraps the operand to `0` (exact ceiling `2 ^ 64`), and at
`2 ^ 53 + 1` the `float64` conversion rounds the product down to `2 ^ 53`
(exact ceiling `2 ^ 53 + 1`), both with threshold exactly 1. -/
theorem mulByFloat_float64_pipeline :
    (∀ (num : Int) (t : BigFloat),
        mulByFloat num t
          = float64CeilToUint64 (roundToPrec 64 (dyMul ⟨(goUint64 num : Int), 0⟩ t.val)))
    ∧ mulByFloat (2 ^ 64) ⟨53, ⟨1, 0⟩⟩ = 0
    ∧ (mulByFloat (2 ^ 64) ⟨53, ⟨1, 0⟩⟩ : Int) ≠ dyCeil (dyMul ⟨2 ^ 64, 0⟩ ⟨1, 0⟩)
    ∧ mulByFloat (2 ^ 53 + 1) ⟨53, ⟨1, 0⟩⟩ = 2 ^ 53
    ∧ (mulByFloat (2 ^ 53 + 1) ⟨53, ⟨1, 0⟩⟩ : Int) ≠ dyCeil (dyMul ⟨2 ^ 53 + 1, 0⟩ ⟨1, 0⟩) := by
  refine ⟨fun num t => rfl, ?_, ?_, ?_, ?_⟩ <;> decide

/-! Heap model for the frame property of `PaysEnough`. Go `big.Int` and
`big.Float` values live behind pointers; the heaps are lists of cells and a
pointer is an index. Every `big.Int`/`big.Float` allocation of the source
(`new(big.Int).Set(...)`, the results of `mulByFloat`, `Sub`, and the local
`big.Float` receiver inside `mulByFloat`) appends a fresh cell; `n.Mul(n,
float)` writes the receiver cell `n`. A frame theorem then states that the
cells that existed before the call are unchanged. -/

abbrev IntHeap := List Int

abbrev FloatHeap := List BigFloat

/-- Default cell read for an out-of-range index (never relevant under the
validity hypotheses). -/
def bf0 : BigFloat := ⟨0, ⟨0, 0⟩⟩

lemma listSetAppendLen {α : Type} (l : List α) (x y : α) :
    (l ++ [x]).set l.length y = l ++ [y] := by
  induction l with
  | nil => rfl
  | cons a l ih => simp [List.set, ih]

lemma listGetDAppendLt {α : Type} (l l2 : List α) (n : Nat) (d : α) (h : n < l.length) :
    (l ++ l2).getD n d = l.getD n d := by
  induction l generalizing n with
  | nil => simp at h
  | cons a l ih =>
    cases n with
    | zero => rfl
    | succ k =>
      have hk : k < l.length := by simpa using h
      simpa [List.getD] using ih k hk

lemma listGetDAppendLen {α : Type} (l l2 : List α) (x d : α) :
    (l ++ x :: l2).getD l.length d = x := by
  induction l with
  | nil => rfl
  | cons a l ih => simpa [List.getD] using ih

lemma listTakeAppendLen {α : Type} (l l2 : List α) :
    (l ++ l2).take l.length = l := by
  induction l with
  | nil => rfl
  | cons a l ih => simp [List.take, ih]

/-- Heap-level embedding of `mulByFloat`: allocates the receiver
`n := new(big.Float).SetUint64(num.Uint64())` as a fresh float cell, reads
the threshold cell, overwrites the receiver with the rounded product
(`n.Mul(n, float)`), and returns the `uint64` result (the caller wraps it in
a fresh `big.Int`). -/
def mulByFloatH (hf : FloatHeap) (num : Int) (tLoc : Nat) : Nat × FloatHeap :=
  let u := goUint64 num
  let n : BigFloat := ⟨64, ⟨(u : Int), 0⟩⟩
  let nLoc := hf.length
  let hf1 := hf ++ [n]
  let t := hf1.getD tLoc bf0
  let product : BigFloat := ⟨64, roundToPrec 64 (dyMul n.val t.val)⟩
  (float64CeilToUint64 product.val, hf1.set nLoc product)

/-- The float heap after `mulByFloatH` is the old heap plus one fresh cell
(the receiver, now holding the product): no existing cell is written. -/
lemma mulByFloatH_ext (hf : FloatHeap) (num : Int) (tLoc : Nat) :
    ∃ p, (mulByFloatH hf num tLoc).2 = hf ++ [p] := by
  simp only [mulByFloatH]
  exact ⟨_, listSetAppendLen hf _ _⟩

/-- With a valid threshold pointer, the heap-level `mulByFloatH` returns the
value of the pure `mulByFloat` on the threshold cell's value. -/
lemma mulByFloatH_val (hf : FloatHeap) (num : Int) (tLoc : Nat) (h : tLoc < hf.length) :
    (mulByFloatH hf num tLoc).1 = mulByFloat num (hf.getD tLoc bf0) := by
  simp only [mulByFloatH, mulByFloat]
  rw [listGetDAppendLt hf _ tLoc bf0 h]

/-- Heap-level tail of `PaysEnough` once the floor cell is in place: the
user-fee/floor comparison, then the optional threshold-up check, which
allocates the `overpaying` difference (`new(big.Int).Sub`), runs `mulByFloat`
on the original expected-fee cell, and allocates its `big.Int` result. -/
def paysEnoughHCore (hi : IntHeap) (hf : FloatHeap) (uL eL fLoc : Nat)
    (tuLoc : Option Nat) : Option FeeError × IntHeap × FloatHeap :=
  if hi.getD uL 0 < hi.getD fLoc 0 then (some .feeTooLow, hi, hf)
  else
    match tuLoc with
    | some tL =>
      if ((mulByFloatH hf (hi.getD eL 0) tL).1 : Int) < hi.getD uL 0 - hi.getD eL 0 then
        (some .feeTooHigh,
          (hi ++ [hi.getD uL 0 - hi.getD eL 0]) ++ [((mulByFloatH hf (hi.getD eL 0) tL).1 : Int)],
          (mulByFloatH hf (hi.getD eL 0) tL).2)
      else
        (none,
          (hi ++ [hi.getD uL 0 - hi.getD eL 0]) ++ [((mulByFloatH hf (hi.getD eL 0) tL).1 : Int)],
          (mulByFloatH hf (hi.getD eL 0) tL).2)
    | none => (none, hi, hf)

/-- Heap-level middle of `PaysEnough`: the optional threshold-down relaxation
of the floor cell; `fee = mulByFloat(fee, ThresholdDown)` allocates a fresh
`big.Int` for the new floor and rebinds the `fee` pointer to it. -/
def paysEnoughHDown (hi : IntHeap) (hf : FloatHeap) (uL eL fLoc : Nat)
    (tuLoc tdLoc : Option Nat) : Option FeeError × IntHeap × FloatHeap :=
  match tdLoc with
  | some tL =>
    paysEnoughHCore (hi ++ [((mulByFloatH hf (hi.getD fLoc 0) tL).1 : Int)])
      (mulByFloatH hf (hi.getD fLoc 0) tL).2 uL eL hi.length tuLoc
  | none => paysEnoughHCore hi hf uL eL fLoc tuLoc

/-- Heap-level embedding of `PaysEnough`: nil checks on the two fee pointers,
then `fee := new(big.Int).Set(opts.ExpectedFee)` — the floor is computed on a
fresh copy of the expected fee — then the two threshold checks. -/
def PaysEnoughH (hi : IntHeap) (hf : FloatHeap)
    (ufLoc efLoc tuLoc tdLoc : Option Nat) : Option FeeError × IntHeap × FloatHeap :=
  match ufLoc with
  | none => (some .missingInput, hi, hf)
  | some uL =>
    match efLoc with
    | none => (some .missingInput, hi, hf)
    | some eL =>
      paysEnoughHDown (hi ++ [hi.getD eL 0]) hf uL eL hi.length tuLoc tdLoc

/-- Validity of an optional pointer into a heap of `n` cells. -/
def locOk (o : Option Nat) (n : Nat) : Bool :=
  match o with
  | none => true
  | some l => decide (l < n)

/-- Pointer validity is monotone in the heap size. -/
lemma locOk_mono {o : Option Nat} {n m : Nat} (h : locOk o n = true) (hnm : n ≤ m) :
    locOk o m = true := by
  cases o with
  | none => rfl
  | some l =>
    simp only [locOk, decide_eq_true_eq] at h ⊢
    omega

/-- Frame and result of the tail stage: the heaps only grow, and the error
result is the pure comparison against the floor cell followed by the pure
threshold-up check. -/
lemma paysEnoughHCore_spec (hi : IntHeap) (hf : FloatHeap) (uL eL fLoc : Nat)
    (tuLoc : Option Nat) (htu : locOk tuLoc hf.length = true) :
    (∃ a b, (paysEnoughHCore hi hf uL eL fLoc tuLoc).2.1 = hi ++ a
        ∧ (paysEnoughHCore hi hf uL eL fLoc tuLoc).2.2 = hf ++ b)
    ∧ (paysEnoughHCore hi hf uL eL fLoc tuLoc).1
        = (if hi.getD uL 0 < hi.getD fLoc 0 then some FeeError.feeTooLow
           else match tuLoc with
           | some tL =>
             if (mulByFloat (hi.getD eL 0) (hf.getD tL bf0) : Int)
                 < hi.getD uL 0 - hi.getD eL 0
             then some FeeError.feeTooHigh else none
           | none => none) := by
  unfold paysEnoughHCore
  by_cases hcmp : hi.getD uL 0 < hi.getD fLoc 0
  · rw [if_pos hcmp, if_pos hcmp]
    exact ⟨⟨[], [], by simp, by simp⟩, rfl⟩
  · rw [if_neg hcmp, if_neg hcmp]
    cases tuLoc with
    | none => exact ⟨⟨[], [], by simp, by simp⟩, rfl⟩
    | some tL =>
      dsimp only
      have htL : tL < hf.length := by
        simpa [locOk] using htu
      obtain ⟨p, hp⟩ := mulByFloatH_ext hf (hi.getD eL 0) tL
      have hval := mulByFloatH_val hf (hi.getD eL 0) tL htL
      rw [hval]
      by_cases hcond : (mulByFloat (hi.getD eL 0) (hf.getD tL bf0) : Int)
          < hi.getD uL 0 - hi.getD eL 0
      · rw [if_pos hcond, if_pos hcond]
        exact ⟨⟨[hi.getD uL 0 - hi.getD eL 0,
            ((mulByFloat (hi.getD eL 0) (hf.getD tL bf0) : Nat) : Int)], [p],
          by simp, hp⟩, rfl⟩
      · rw [if_neg hcond, if_neg hcond]
        exact ⟨⟨[hi.getD uL 0 - hi.getD eL 0,
            ((mulByFloat (hi.getD eL 0) (hf.getD tL bf0) : Nat) : Int)], [p],
          by simp, hp⟩, rfl⟩

/-- Frame and result of the threshold-down stage plus tail: the heaps only
grow, and the error result is the pure validator logic on the values read at
the (valid) input pointers, the floor being the value of the `fee` cell at
`fLoc` possibly relaxed through `mulByFloat`. -/
lemma paysEnoughHDown_spec (hi : IntHeap) (hf : FloatHeap) (uL eL fLoc : Nat)
    (tuLoc tdLoc : Option Nat)
    (htu : locOk tuLoc hf.length = true) (htd : locOk tdLoc hf.length = true)
    (huL : uL < hi.length) (heL : eL < hi.length) :
    (∃ a b, (paysEnoughHDown hi hf uL eL fLoc tuLoc tdLoc).2.1 = hi ++ a
        ∧ (paysEnoughHDown hi hf uL eL fLoc tuLoc tdLoc).2.2 = hf ++ b)
    ∧ (paysEnoughHDown hi hf uL eL fLoc tuLoc tdLoc).1
        = (if hi.getD uL 0 < (match tdLoc with
              | some tL => ((mulByFloat (hi.getD fLoc 0) (hf.getD tL bf0) : Nat) : Int)
              | none => hi.getD fLoc 0)
           then some FeeError.feeTooLow
           else match tuLoc with
           | some tL2 =>
             if (mulByFloat (hi.getD eL 0) (hf.getD tL2 bf0) : Int)
                 < hi.getD uL 0 - hi.getD eL 0
             then some FeeError.feeTooHigh else none
           | none => none) := by
  cases tdLoc with
  | none => exact paysEnoughHCore_spec hi hf uL eL fLoc tuLoc htu
  | some tL =>
    have htL : tL < hf.length := by
      simpa [locOk] using htd
    obtain ⟨p, hp⟩ := mulByFloatH_ext hf (hi.getD fLoc 0) tL
    have hval := mulByFloatH_val hf (hi.getD fLoc 0) tL htL
    unfold paysEnoughHDown
    dsimp only
    rw [hval, hp]
    have htu2 : locOk tuLoc (hf ++ [p]).length = true :=
      locOk_mono htu (by simp)
    have hcore := paysEnoughHCore_spec
      (hi ++ [((mulByFloat (hi.getD fLoc 0) (hf.getD tL bf0) : Nat) : Int)])
      (hf ++ [p]) uL eL hi.length tuLoc htu2
    obtain ⟨⟨a, b, ha, hb⟩, hres⟩ := hcore
    constructor
    · refine ⟨[((mulByFloat (hi.getD fLoc 0) (hf.getD tL bf0) : Nat) : Int)] ++ a,
        [p] ++ b, ?_, ?_⟩
      · rw [ha]
        simp
      · rw [hb]
        simp
    · rw [hres]
      have hru : (hi ++ [((mulByFloat (hi.getD fLoc 0) (hf.getD tL bf0) : Nat) : Int)]).getD uL 0
          = hi.getD uL 0 := listGetDAppendLt hi _ uL 0 huL
      have hre : (hi ++ [((mulByFloat (hi.getD fLoc 0) (hf.getD tL bf0) : Nat) : Int)]).getD eL 0
          = hi.getD eL 0 := listGetDAppendLt hi _ eL 0 heL
      have hrf : (hi ++ [((mulByFloat (hi.getD fLoc 0) (hf.getD tL bf0) : Nat) : Int)]).getD
            hi.length 0
          = ((mulByFloat (hi.getD fLoc 0) (hf.getD tL bf0) : Nat) : Int) :=
        listGetDAppendLen hi [] _ 0
      rw [hru, hre, hrf]
      cases tuLoc with
      | none => rfl
      | some tL2 =>
        have htL2 : tL2 < hf.length := by
          simpa [locOk] using htu
        have hrt : (hf ++ [p]).getD tL2 bf0 = hf.getD tL2 bf0 :=
          listGetDAppendLt hf [p] tL2 bf0 htL2
        dsimp only
        rw [hrt]

/-- A list is its own prefix of full length. -/
lemma listTakeLen {α : Type} (l : List α) : l.take l.length = l := by
  induction l with
  | nil => rfl
  | cons a l ih => simp [List.take, ih]

/-- C10: `PaysEnough` never mutates its inputs. In the heap model, every
`big.Int` and `big.Float` cell that existed before the call holds the same
value afterwards — the call only appends fresh cells (the floor is computed
on a fresh copy of the expected fee, `mulByFloat` writes only its own fresh
receiver) — and the error result is exactly the pure `PaysEnough` of the
values read at the input pointers. -/
theorem paysEnoughH_frame (hi : IntHeap) (hf : FloatHeap)
    (ufLoc efLoc tuLoc tdLoc : Option Nat)
    (hu : locOk ufLoc hi.length = true) (he : locOk efLoc hi.length = true)
    (htu : locOk tuLoc hf.length = true) (htd : locOk tdLoc hf.length = true) :
    (PaysEnoughH hi hf ufLoc efLoc tuLoc tdLoc).2.1.take hi.length = hi
    ∧ (PaysEnoughH hi hf ufLoc efLoc tuLoc tdLoc).2.2.take hf.length = hf
    ∧ (PaysEnoughH hi hf ufLoc efLoc tuLoc tdLoc).1
        = PaysEnough ⟨ufLoc.map (fun l => hi.getD l 0), efLoc.map (fun l => hi.getD l 0),
            tuLoc.map (fun l => hf.getD l bf0), tdLoc.map (fun l => hf.getD l bf0)⟩ := by
  cases ufLoc with
  | none => exact ⟨listTakeLen hi, listTakeLen hf, rfl⟩
  | some uL =>
    cases efLoc with
    | none => exact ⟨listTakeLen hi, listTakeLen hf, rfl⟩
    | some eL =>
      have huL : uL < hi.length := by simpa [locOk] using hu
      have heL : eL < hi.length := by simpa [locOk] using he
      have huL1 : uL < (hi ++ [hi.getD eL 0]).length := by
        simp only [List.length_append, List.length_cons, List.length_nil]
        omega
      have heL1 : eL < (hi ++ [hi.getD eL 0]).length := by
        simp only [List.length_append, List.length_cons, List.length_nil]
        omega
      have hdown := paysEnoughHDown_spec (hi ++ [hi.getD eL 0]) hf uL eL hi.length
        tuLoc tdLoc htu htd huL1 heL1
      obtain ⟨⟨a, b, ha, hb⟩, hres⟩ := hdown
      unfold PaysEnoughH
      dsimp only
      refine ⟨?_, ?_, ?_⟩
      · rw [ha, List.append_assoc]
        exact listTakeAppendLen hi _
      · rw [hb]
        exact listTakeAppendLen hf _
      · rw [hres]
        have h1 : (hi ++ [hi.getD eL 0]).getD uL 0 = hi.getD uL 0 :=
          listGetDAppendLt hi _ uL 0 huL
        have h2 : (hi ++ [hi.getD eL 0]).getD eL 0 = hi.getD eL 0 :=
          listGetDAppendLt hi _ eL 0 heL
        have h3 : (hi ++ [hi.getD eL 0]).getD hi.length 0 = hi.getD eL 0 :=
          listGetDAppendLen hi [] _ 0
        rw [h1, h2, h3]
        unfold PaysEnough
        cases tdLoc <;> cases tuLoc <;> rfl

/-- Witness for C10 on the concrete heaps `[5, 3]` (user fee 5 at cell 0,
expected fee 3 at cell 1) and `[1.5]` (threshold-up at float cell 0): the
call leaves both original heaps intact as prefixes and returns what the pure
validator returns. -/
theorem paysEnoughH_frame_witness :
    (PaysEnoughH [5, 3] [⟨53, ⟨3, -1⟩⟩] (some 0) (some 1) (some 0) none).2.1.take 2
        = ([5, 3] : IntHeap)
    ∧ (PaysEnoughH [5, 3] [⟨53, ⟨3, -1⟩⟩] (some 0) (some 1) (some 0) none).2.2.take 1
        = ([⟨53, ⟨3, -1⟩⟩] : FloatHeap)
    ∧ (PaysEnoughH [5, 3] [⟨53, ⟨3, -1⟩⟩] (some 0) (some 1) (some 0) none).1
        = PaysEnough ⟨some 5, some 3, some ⟨53, ⟨3, -1⟩⟩, none⟩ :=
  paysEnoughH_frame [5, 3] [⟨53, ⟨3, -1⟩⟩] (some 0) (some 1) (some 0) none
    (by decide) (by decide) (by decide) (by decide)
